import Mathlib

/-!
Verification development for the SolanaLens analytics engine.

The embedding below translates the analytics core of the repository
(`src/analytics` — the `AnalyticsEngine` class — together with the data
types and the label directory it consumes from `src/solana`) into Lean.

Modelling conventions:
* JavaScript numbers are embedded as `ℚ` where the code divides or keeps
  running averages (TPS, success rates, shares, the EWMA baseline), and as
  `ℕ` where the code only counts (transaction counts, invocation counts,
  lengths).
* A JavaScript `Map<string, number>` is embedded as an insertion-ordered
  association list `List (String × ℕ)`; the `Map` key-uniqueness guarantee
  appears as a `Nodup` hypothesis where a proof needs it.
* A JavaScript `Set<string>` is embedded as a `List String` used only
  through membership.
* `Anomaly.message`, `Anomaly.data` and `Anomaly.timestamp` are display
  metadata built with `toFixed`/`Date.now`; the structured payload field
  that identifies which program an anomaly is about is kept as
  `Anomaly.programId`, the rest is not modelled.
* The wall clock (`Date.now()`) is passed in as the `now` field of the
  fetched data.
-/

namespace SolanaLens

/-! ## Label Directory (`src/solana/programs.ts`) -/

/-- The static table `KNOWN_PROGRAMS` mapping identifiers to labels. -/
def KNOWN_PROGRAMS : List (String × String) := [
  ("11111111111111111111111111111111", "System Program"),
  ("TokenkegQfeZyiNwAJbNbGKPFXCWuBvf9Ss623VQ5DA", "Token Program"),
  ("TokenzQdBNbLqP5VEhdkAS6EPFLC1PHnBqCXEpPxuEb", "Token-2022"),
  ("ATokenGPvbdGVxr1b2hvZbsiqW5xWH25efTNsLJA8knL", "Associated Token Account"),
  ("ComputeBudget111111111111111111111111111111", "Compute Budget"),
  ("Vote111111111111111111111111111111111111111", "Vote Program"),
  ("Stake11111111111111111111111111111111111111", "Stake Program"),
  ("Config1111111111111111111111111111111111111", "Config Program"),
  ("BPFLoaderUpgradeab1e11111111111111111111111", "BPF Loader Upgradeable"),
  ("BPFLoader2111111111111111111111111111111111", "BPF Loader"),
  ("BPFLoader1111111111111111111111111111111111", "BPF Loader (Deprecated)"),
  ("SysvarC1ock11111111111111111111111111111111", "Sysvar Clock"),
  ("SysvarRent111111111111111111111111111111111", "Sysvar Rent"),
  ("SysvarS1otHashes111111111111111111111111111", "Sysvar Slot Hashes"),
  ("MemoSq4gqABAXKb96qnH8TysNcWxMyWCqXgDLGmfcHr", "Memo Program v2"),
  ("Memo1UhkJBfCR6MNBAxoGRGWfLs68tk5sJHCFiy553J", "Memo Program v1"),
  ("JUP6LkbZbjS1jKKwapdHNy74zcZ3tLUZoi5QNyVTaV4", "Jupiter v6"),
  ("whirLbMiicVdio4qvUfM5KAg6Ct8VwpYzGff3uctyCc", "Orca Whirlpools"),
  ("675kPX9MHTjS2zt1qfr1NYHuzeLXfQM9H24wFSUt1Mp8", "Raydium AMM"),
  ("CAMMCzo5YL8w4VFF8KVHrK22GGUsp5VTaW7grrKgrWqK", "Raydium CLMM"),
  ("9xQeWvG816bUx9EPjHmaT23yvVM2ZWbrrpZb9PusVFin", "Serum DEX v3"),
  ("srmqPvymJeFKQ4zGQed1GFppgkRHL9kaELCbyksJtPX", "Serum DEX v4"),
  ("metaqbxxUerdq28cj1RbAWkYQm3ybzjb6a8bt518x1s", "Metaplex Token Metadata"),
  ("cndy3Z4yapfJBmearMhi7hipHMbSy6vrQFsFYD4KZm", "Candy Machine v2"),
  ("Guard1JwRhJkVH6XZhzoYxeBVQe872VH6QggF4BWmS9g", "Candy Guard"),
  ("MFv2hWf31Z9kbCa1snEPYctwafyhdvnV7FZnsebVacA", "Marinade Finance"),
  ("So1endDq2YkqhipRh3WViPa8hFb7w2oSTY1BoqEG4xB", "Solend (Deprecated)"),
  ("jCebN34bUfdeUYJT13J1yG16XWQpt5PDx6Mse9GUqhR", "Jito Staking"),
  ("DjVE6JNiYqPL2QXyCUUh8rNjHrbz9hXHNYt99MQ59qw1", "Orca Token Swap"),
  ("namesLPneVptA9Z5rqUDD9tMTWEJwofgaYwp8cawRkX", "Name Service"),
  ("noopb9bkMVfRPU8AsBRBV8cn9CG5qawRUMkdJVsB8TQ", "SPL Noop"),
  ("auth9SigNpDKz4sJJ1DfCTuZrZNSAgh9sFD3rboVmgg", "SPL Auth Rules")]

/-- The `shortenAddress` fallback representation of an unknown identifier. -/
def shortenAddress (address : String) : String :=
  if address.length ≤ 11 then address
  else address.take 4 ++ "..." ++ address.takeRight 4

/-- The `getProgramLabel` lookup (`KNOWN_PROGRAMS[id] || shortenAddress(id)`;
all table labels are non-empty strings, so the falsy-fallback is an
`Option.getD`). -/
def getProgramLabel (programId : String) : String :=
  (KNOWN_PROGRAMS.lookup programId).getD (shortenAddress programId)

/-- The static table `PROGRAM_CATEGORIES`, in object-entry order. -/
def PROGRAM_CATEGORIES : List (String × List String) := [
  ("Core", [
    "11111111111111111111111111111111",
    "ComputeBudget111111111111111111111111111111",
    "Vote111111111111111111111111111111111111111",
    "Stake11111111111111111111111111111111111111"]),
  ("Token", [
    "TokenkegQfeZyiNwAJbNbGKPFXCWuBvf9Ss623VQ5DA",
    "TokenzQdBNbLqP5VEhdkAS6EPFLC1PHnBqCXEpPxuEb",
    "ATokenGPvbdGVxr1b2hvZbsiqW5xWH25efTNsLJA8knL"]),
  ("DEX", [
    "JUP6LkbZbjS1jKKwapdHNy74zcZ3tLUZoi5QNyVTaV4",
    "whirLbMiicVdio4qvUfM5KAg6Ct8VwpYzGff3uctyCc",
    "675kPX9MHTjS2zt1qfr1NYHuzeLXfQM9H24wFSUt1Mp8",
    "CAMMCzo5YL8w4VFF8KVHrK22GGUsp5VTaW7grrKgrWqK"]),
  ("NFT", [
    "metaqbxxUerdq28cj1RbAWkYQm3ybzjb6a8bt518x1s",
    "cndy3Z4yapfJBmearMhi7hipHMbSy6vrQFsFYD4KZm"]),
  ("DeFi", [
    "MFv2hWf31Z9kbCa1snEPYctwafyhdvnV7FZnsebVacA",
    "So1endDq2YkqhipRh3WViPa8hFb7w2oSTY1BoqEG4xB",
    "jCebN34bUfdeUYJT13J1yG16XWQpt5PDx6Mse9GUqhR"])]

/-- The `categorizeProgram` lookup: first category whose list contains the
identifier, in table order, else the sentinel `"Other"`. -/
def categorizeProgram (programId : String) : String :=
  match PROGRAM_CATEGORIES.find? (fun cat => cat.2.contains programId) with
  | some cat => cat.1
  | none => "Other"

/-! ## Data model (`src/solana/client.ts`) -/

/-- The `epochInfo` sub-record of `NetworkStats`. -/
structure EpochInfo where
  epoch : Nat
  slotIndex : Nat
  slotsInEpoch : Nat
  absoluteSlot : Nat
  transactionCount : Option Nat
deriving DecidableEq

/-- The `NetworkStats` record returned by `getNetworkStats`. -/
structure NetworkStats where
  currentSlot : Nat
  blockHeight : Nat
  epochInfo : EpochInfo
  tps : ℚ
  validatorCount : Nat
deriving DecidableEq

/-- One `BlockProduction` record returned by `getRecentBlockProduction`. -/
structure BlockProduction where
  slot : Nat
  leader : String
  numTransactions : Nat
  numSuccessful : Nat
  numFailed : Nat
  blockTime : Option Int
deriving DecidableEq

/-- An insertion-ordered `Map<string, number>` of per-identifier invocation
counts, as built by `getTopProgramsFromRecentBlocks`. -/
abbrev InvocationCounts : Type := List (String × Nat)

/-! ## Analytics data model (`src/analytics`) -/

/-- The `BlockSummary` aggregate. -/
structure BlockSummary where
  blocksAnalyzed : Nat
  totalTransactions : Nat
  successRate : ℚ
  avgTxPerBlock : ℚ
  avgFeePerTx : ℚ
deriving DecidableEq

/-- One `ProgramRanking` entry. -/
structure ProgramRanking where
  programId : String
  label : String
  category : String
  invocationCount : Nat
  share : ℚ
deriving DecidableEq

/-- Anomaly severity (`"low" | "medium" | "high"`). -/
inductive Severity where
  | low
  | medium
  | high
deriving DecidableEq

/-- The closed enumeration of anomaly kinds. -/
inductive AnomalyType where
  | high_failure_rate
  | tps_spike
  | tps_drop
  | program_surge
  | large_block
  | empty_block
  | new_program_detected
deriving DecidableEq

/-- An `Anomaly`, keeping kind, severity and (for the per-program rules) the
`programId` field of the structured `data` payload. -/
structure Anomaly where
  type : AnomalyType
  severity : Severity
  programId : Option String
deriving DecidableEq

/-- One retained `HistoricalDataPoint`. -/
structure HistoricalDataPoint where
  timestamp : Nat
  tps : ℚ
  txCount : Nat
  successRate : ℚ
  programCounts : InvocationCounts
deriving DecidableEq

/-- The composed `NetworkSnapshot` result. -/
structure NetworkSnapshot where
  timestamp : Nat
  stats : NetworkStats
  topPrograms : List ProgramRanking
  blockSummary : BlockSummary
  anomalies : List Anomaly
deriving DecidableEq

/-- The engine-owned mutable state: History Ring, all-time known-identifier
set, nullable EWMA baseline. -/
structure EngineState where
  history : List HistoricalDataPoint
  knownPrograms : List String
  baselineTps : Option ℚ
deriving DecidableEq

/-- The state of a freshly constructed `AnalyticsEngine`. -/
def initialState : EngineState := ⟨[], [], none⟩

/-- The `maxHistoryLength` capacity of the History Ring. -/
def maxHistoryLength : Nat := 100

/-! ## Snapshot Aggregator (`summarizeBlocks`) -/

/-- `summarizeBlocks`: zero-valued summary on the empty batch, otherwise
totals, pooled success rate and average transactions per block. -/
def summarizeBlocks (blocks : List BlockProduction) : BlockSummary :=
  if blocks.length = 0 then
    { blocksAnalyzed := 0
      totalTransactions := 0
      successRate := 0
      avgTxPerBlock := 0
      avgFeePerTx := 0 }
  else
    let totalTx : Nat := (blocks.map (fun b => b.numTransactions)).sum
    let totalSuccess : Nat := (blocks.map (fun b => b.numSuccessful)).sum
    { blocksAnalyzed := blocks.length
      totalTransactions := totalTx
      successRate := if 0 < totalTx then ((totalSuccess : ℚ) / (totalTx : ℚ)) * 100 else 0
      avgTxPerBlock := (totalTx : ℚ) / (blocks.length : ℚ)
      avgFeePerTx := 0 }

/-! ## Ranking Function (`rankPrograms`) -/

/-- The sort comparator `(a, b) => b.invocationCount - a.invocationCount`
as a boolean order: `a` may precede `b` when `b.invocationCount ≤
a.invocationCount` (descending by invocation count). -/
def rankLe (a b : ProgramRanking) : Bool :=
  decide (b.invocationCount ≤ a.invocationCount)

/-- The body of the `.map` callback in `rankPrograms`: one entry with its
share of the total (the callback closes over `total`, the sum of all
counts of the same map). -/
def rankEntry (programCounts : InvocationCounts) (pc : String × Nat) : ProgramRanking :=
  let total : Nat := (programCounts.map Prod.snd).sum
  { programId := pc.1
    label := getProgramLabel pc.1
    category := categorizeProgram pc.1
    invocationCount := pc.2
    share := if 0 < total then ((pc.2 : ℚ) / (total : ℚ)) * 100 else 0 }

/-- `rankPrograms`: map each entry to a `ProgramRanking` with its share of
the total, sort descending by invocation count (stable, as JavaScript
`Array.prototype.sort`), truncate to the top 20. -/
def rankPrograms (programCounts : InvocationCounts) : List ProgramRanking :=
  ((programCounts.map (rankEntry programCounts)).mergeSort rankLe).take 20

/-! ## Anomaly Rule Set (`detectAnomalies`)

The source is one method whose body is a sequence of independent rule
blocks pushing into one array; each block is translated as its own
function and `detectAnomalies` concatenates their outputs in the source
order. -/

/-- Rule `high_failure_rate`: `successRate < 80 && totalTransactions > 10`. -/
def failureRateAnomalies (blockSummary : BlockSummary) : List Anomaly :=
  if blockSummary.successRate < 80 ∧ 10 < blockSummary.totalTransactions then
    [{ type := .high_failure_rate
       severity := if blockSummary.successRate < 50 then .high else .medium
       programId := none }]
  else []

/-- Rules `tps_spike` / `tps_drop`, guarded by
`baselineTps !== null && baselineTps > 0` and chained with `else if`. -/
def tpsAnomalies (stats : NetworkStats) (baselineTps : Option ℚ) : List Anomaly :=
  match baselineTps with
  | none => []
  | some b =>
    if 0 < b then
      let tpsRatio := stats.tps / b
      if 2 < tpsRatio then
        [{ type := .tps_spike
           severity := if 3 < tpsRatio then .high else .medium
           programId := none }]
      else if tpsRatio < 3 / 10 ∧ 0 < stats.tps then
        [{ type := .tps_drop
           severity := if tpsRatio < 1 / 10 then .high else .medium
           programId := none }]
      else []
    else []

/-- Rule `large_block`: `avgTxPerBlock > 2000`. -/
def largeBlockAnomalies (blockSummary : BlockSummary) : List Anomaly :=
  if 2000 < blockSummary.avgTxPerBlock then
    [{ type := .large_block
       severity := if 5000 < blockSummary.avgTxPerBlock then .high else .low
       programId := none }]
  else []

/-- Rule `empty_block`: `avgTxPerBlock < 5 && blocksAnalyzed > 0`. -/
def emptyBlockAnomalies (blockSummary : BlockSummary) : List Anomaly :=
  if blockSummary.avgTxPerBlock < 5 ∧ 0 < blockSummary.blocksAnalyzed then
    [{ type := .empty_block
       severity := .medium
       programId := none }]
  else []

/-- The set of identifiers occurring in the last 5 history entries
(`this.history.slice(-5)`), as iterated by the `new_program_detected`
rule. -/
def previousPrograms (history : List HistoricalDataPoint) : List String :=
  (history.drop (history.length - 5)).flatMap (fun h => h.programCounts.map Prod.fst)

/-- Rule `new_program_detected`: only once `history.length > 3`, one
low-severity anomaly per identifier of this round that is absent from the
last 5 history entries and from the all-time known set. -/
def newProgramAnomalies (programCounts : InvocationCounts)
    (history : List HistoricalDataPoint) (knownPrograms : List String) : List Anomaly :=
  if 3 < history.length then
    (programCounts.map Prod.fst).filterMap (fun programId =>
      if programId ∉ previousPrograms history ∧ programId ∉ knownPrograms then
        some { type := .new_program_detected
               severity := .low
               programId := some programId }
      else none)
  else []

/-- Rule `program_surge`: only once `history.length > 2`, compare each
identifier's current count against its count in the single most recent
history entry (`this.history[this.history.length - 1]`). -/
def programSurgeAnomalies (programCounts : InvocationCounts)
    (history : List HistoricalDataPoint) : List Anomaly :=
  if 2 < history.length then
    match history.getLast? with
    | none => []
    | some lastSnapshot =>
      programCounts.filterMap (fun pc =>
        let prevCount := (lastSnapshot.programCounts.lookup pc.1).getD 0
        if 5 < prevCount ∧ prevCount * 3 < pc.2 then
          some { type := .program_surge
                 severity := if prevCount * 10 < pc.2 then .high else .medium
                 programId := some pc.1 }
        else none)
  else []

/-- `detectAnomalies`, evaluated against the pre-update engine state; the
`_topPrograms` argument is passed but unused, as in the source. -/
def detectAnomalies (stats : NetworkStats) (blockSummary : BlockSummary)
    (_topPrograms : List ProgramRanking) (programCounts : InvocationCounts)
    (st : EngineState) : List Anomaly :=
  failureRateAnomalies blockSummary ++
  tpsAnomalies stats st.baselineTps ++
  largeBlockAnomalies blockSummary ++
  emptyBlockAnomalies blockSummary ++
  newProgramAnomalies programCounts st.history st.knownPrograms ++
  programSurgeAnomalies programCounts st.history

/-! ## Analytics Engine orchestration (`takeSnapshot`) -/

/-- The three fetched data slices of one `takeSnapshot` round, plus the
wall-clock reading used for the pushed history entry. -/
structure FetchData where
  stats : NetworkStats
  blocks : List BlockProduction
  programCounts : InvocationCounts
  now : Nat
deriving DecidableEq

/-- The `HistoricalDataPoint` pushed by `takeSnapshot` for one round. -/
def historyPoint (d : FetchData) : HistoricalDataPoint :=
  { timestamp := d.now
    tps := d.stats.tps
    txCount := (summarizeBlocks d.blocks).totalTransactions
    successRate := (summarizeBlocks d.blocks).successRate
    programCounts := d.programCounts }

/-- The successful path of `takeSnapshot`: summarize, rank, detect
anomalies against the pre-update state, then update history (push, then
shift once over capacity), baseline (EWMA, first observation direct) and
the known-identifier set. -/
def takeSnapshotCore (st : EngineState) (d : FetchData) :
    NetworkSnapshot × EngineState :=
  let blockSummary := summarizeBlocks d.blocks
  let topPrograms := rankPrograms d.programCounts
  let anomalies := detectAnomalies d.stats blockSummary topPrograms d.programCounts st
  let history1 := st.history ++ [historyPoint d]
  let history2 := if maxHistoryLength < history1.length then history1.tail else history1
  let baselineTps : Option ℚ :=
    match st.baselineTps with
    | none => some d.stats.tps
    | some b => some (b * (9 / 10) + d.stats.tps * (1 / 10))
  let knownPrograms := st.knownPrograms ++ d.programCounts.map Prod.fst
  (⟨d.now, d.stats, topPrograms, blockSummary, anomalies⟩,
   ⟨history2, knownPrograms, baselineTps⟩)

/-- `takeSnapshot` with its three concurrent fetches made explicit as
`Except` results (`Promise.all` rejects as soon as any fetch rejects): on
any fetch failure the error propagates and the state is returned
untouched; the state is only replaced on the all-success path. -/
def takeSnapshotE (st : EngineState) (statsR : Except String NetworkStats)
    (blocksR : Except String (List BlockProduction))
    (countsR : Except String InvocationCounts) (now : Nat) :
    EngineState × Except String NetworkSnapshot :=
  match statsR, blocksR, countsR with
  | .ok stats, .ok blocks, .ok counts =>
    let r := takeSnapshotCore st ⟨stats, blocks, counts, now⟩
    (r.2, .ok r.1)
  | .error e, _, _ => (st, .error e)
  | .ok _, .error e, _ => (st, .error e)
  | .ok _, .ok _, .error e => (st, .error e)

/-- The state transition of one completed `takeSnapshot` call. -/
def takeSnapshotStep (st : EngineState) (d : FetchData) : EngineState :=
  (takeSnapshotCore st d).2

/-- A sequence of completed `takeSnapshot` calls. -/
def runSnapshots (st : EngineState) (ds : List FetchData) : EngineState :=
  ds.foldl takeSnapshotStep st

/-- `getHistory` at the value level: the data the accessor exposes, in
ring order. -/
def getHistory (st : EngineState) : List HistoricalDataPoint :=
  st.history

/-- `getBaselineTps` accessor. -/
def getBaselineTps (st : EngineState) : Option ℚ :=
  st.baselineTps

/-! ## Reference-level model of `getHistory`

`getHistory` returns `[...this.history]`: a fresh array object whose
elements are the same `HistoricalDataPoint` object references as the
engine-internal array's. To reason about caller-side mutation this is
modelled with an explicit store: addresses are indices into a store of
`HistoricalDataPoint` objects, the engine and the caller each hold a list
of addresses, and the observable history is the list of pointed-to
objects. -/

/-- The array copy `[...this.history]`: a new array value holding the same
element references. -/
def getHistoryShallowCopy (engineRefs : List Nat) : List Nat :=
  engineRefs

/-- What a reader of a reference list observes in a given store. -/
def heapView (store : List HistoricalDataPoint) (refs : List Nat) :
    List (Option HistoricalDataPoint) :=
  refs.map (fun addr => store.get? addr)

/-- JavaScript `Map.prototype.set`: replace in place when the key exists,
append otherwise. -/
def mapSet (m : InvocationCounts) (key : String) (value : Nat) : InvocationCounts :=
  if (m.map Prod.fst).contains key then
    m.map (fun pc => if pc.1 = key then (key, value) else pc)
  else m ++ [(key, value)]

/-- Mutation of the object stored at one address (a caller writing through
a shared element reference). -/
def storeWrite (store : List HistoricalDataPoint) (addr : Nat)
    (f : HistoricalDataPoint → HistoricalDataPoint) : List HistoricalDataPoint :=
  match store.get? addr with
  | some pt => store.set addr (f pt)
  | none => store

/-! ## Helper lemmas -/

/-- One completed call keeps the History Ring within capacity. -/
theorem takeSnapshotStep_history_length_le (st : EngineState) (d : FetchData)
    (h : st.history.length ≤ maxHistoryLength) :
    (takeSnapshotStep st d).history.length ≤ maxHistoryLength := by
  simp only [takeSnapshotStep, takeSnapshotCore]
  split
  · simp_all [List.length_tail]
  · next hc =>
    simp only [List.length_append, List.length_singleton] at hc ⊢
    omega

/-- Any sequence of completed calls keeps the History Ring within
capacity. -/
theorem runSnapshots_history_length_le (ds : List FetchData) (st : EngineState)
    (h : st.history.length ≤ maxHistoryLength) :
    (runSnapshots st ds).history.length ≤ maxHistoryLength := by
  induction ds generalizing st with
  | nil => simpa [runSnapshots] using h
  | cons d ds ih =>
    simpa [runSnapshots] using ih _ (takeSnapshotStep_history_length_le st d h)

/-! ## Claims -/

/-- C1: if any of the three concurrent fetches fails, `takeSnapshot` fails
as a whole — the error propagates, no snapshot is produced, and the
engine state (History Ring, baseline, known-identifier set) is exactly the
pre-call state. -/
theorem C1_fetch_failure_propagates_state_unchanged (st : EngineState)
    (statsR : Except String NetworkStats)
    (blocksR : Except String (List BlockProduction))
    (countsR : Except String InvocationCounts) (now : Nat)
    (h : statsR.isOk = false ∨ blocksR.isOk = false ∨ countsR.isOk = false) :
    (takeSnapshotE st statsR blocksR countsR now).1 = st ∧
    ∃ e, (takeSnapshotE st statsR blocksR countsR now).2 = Except.error e := by
  cases statsR with
  | error e => exact ⟨rfl, e, rfl⟩
  | ok stats =>
    cases blocksR with
    | error e => exact ⟨rfl, e, rfl⟩
    | ok blocks =>
      cases countsR with
      | error e => exact ⟨rfl, e, rfl⟩
      | ok counts => simp [Except.isOk, Except.toBool] at h

/-- Witness for C1 at a concrete failing fetch. -/
theorem C1_witness :
    (takeSnapshotE initialState (Except.error "rpc unreachable") (Except.ok [])
        (Except.ok []) 0).1 = initialState ∧
    ∃ e, (takeSnapshotE initialState (Except.error "rpc unreachable") (Except.ok [])
        (Except.ok []) 0).2 = Except.error e :=
  C1_fetch_failure_propagates_state_unchanged initialState
    (Except.error "rpc unreachable") (Except.ok []) (Except.ok []) 0 (Or.inl rfl)

/-- C4: the baseline is set to the observed TPS on the first observation,
is otherwise updated by `baseline * 0.9 + observed * 0.1` (so baseline 100
with observed 200 yields 110), and is never `none` after a call. -/
theorem C4_baseline_ewma (st : EngineState) (d : FetchData) :
    ((takeSnapshotCore st d).2.baselineTps =
      match st.baselineTps with
      | none => some d.stats.tps
      | some b => some (b * (9 / 10) + d.stats.tps * (1 / 10))) ∧
    (st.baselineTps = some 100 → d.stats.tps = 200 →
      (takeSnapshotCore st d).2.baselineTps = some 110) ∧
    (takeSnapshotCore st d).2.baselineTps ≠ none := by
  refine ⟨rfl, ?_, ?_⟩
  · intro h1 h2
    simp [takeSnapshotCore, h1, h2]
    norm_num
  · cases h : st.baselineTps <;> simp [takeSnapshotCore, h]

/-- Witness for C4: baseline 100 with observed TPS 200 yields 110. -/
theorem C4_witness :
    (takeSnapshotCore ⟨[], [], some 100⟩
        ⟨⟨0, 0, ⟨0, 0, 1, 0, none⟩, 200, 0⟩, [], [], 0⟩).2.baselineTps = some 110 :=
  (C4_baseline_ewma ⟨[], [], some 100⟩
    ⟨⟨0, 0, ⟨0, 0, 1, 0, none⟩, 200, 0⟩, [], [], 0⟩).2.1 rfl rfl

/-- C5: after every sequence of completed calls the History Ring holds at
most 100 entries, one entry is appended per call, and once at capacity the
oldest entry (the front of the ring) is dropped first while the order of
the rest is preserved. -/
theorem C5_history_ring_capacity_fifo (ds : List FetchData) (st : EngineState)
    (d : FetchData) (hle : st.history.length ≤ maxHistoryLength) :
    (runSnapshots initialState ds).history.length ≤ maxHistoryLength ∧
    (takeSnapshotStep st d).history =
      (if st.history.length = maxHistoryLength
       then st.history.tail ++ [historyPoint d]
       else st.history ++ [historyPoint d]) := by
  constructor
  · exact runSnapshots_history_length_le ds initialState (by simp [initialState])
  · simp only [takeSnapshotStep, takeSnapshotCore]
    by_cases hn : st.history.length = maxHistoryLength
    · have hlt : maxHistoryLength < (st.history ++ [historyPoint d]).length := by
        simp [hn]
      rw [if_pos hlt, if_pos hn]
      cases hh : st.history with
      | nil => rw [hh] at hn; simp [maxHistoryLength] at hn
      | cons a t => simp
    · have hlt : ¬ maxHistoryLength < (st.history ++ [historyPoint d]).length := by
        simp only [List.length_append, List.length_singleton]
        omega
      rw [if_neg hlt, if_neg hn]

/-- Witness for C5 at a concrete state below capacity. -/
theorem C5_witness :
    (runSnapshots initialState []).history.length ≤ maxHistoryLength ∧
    (takeSnapshotStep initialState ⟨⟨0, 0, ⟨0, 0, 1, 0, none⟩, 10, 0⟩, [], [], 0⟩).history =
      (if initialState.history.length = maxHistoryLength
       then initialState.history.tail ++
         [historyPoint ⟨⟨0, 0, ⟨0, 0, 1, 0, none⟩, 10, 0⟩, [], [], 0⟩]
       else initialState.history ++
         [historyPoint ⟨⟨0, 0, ⟨0, 0, 1, 0, none⟩, 10, 0⟩, [], [], 0⟩]) :=
  C5_history_ring_capacity_fifo [] initialState
    ⟨⟨0, 0, ⟨0, 0, 1, 0, none⟩, 10, 0⟩, [], [], 0⟩ (by simp [initialState])

/-- C2: the Snapshot Aggregator returns the all-zero summary on the empty
batch; on a non-empty batch it returns the batch length, the pooled
transaction total, the pooled success rate `(Σ successful / Σ total) × 100`
(0 when the total is 0) which lies in `[0, 100]`, the average transactions
per block, and `avgFeePerTx = 0`. The hypothesis that no block reports more
successes than transactions holds for every record the data source builds
(`numSuccessful = numTx - numFailed` with `numFailed ≤ numTx`). -/
theorem C2_summarizeBlocks_spec (blocks : List BlockProduction)
    (hb : ∀ b ∈ blocks, b.numSuccessful ≤ b.numTransactions) :
    summarizeBlocks [] = ⟨0, 0, 0, 0, 0⟩ ∧
    (blocks ≠ [] →
      (summarizeBlocks blocks).blocksAnalyzed = blocks.length ∧
      (summarizeBlocks blocks).totalTransactions =
        (blocks.map (fun b => b.numTransactions)).sum ∧
      (summarizeBlocks blocks).successRate =
        (if 0 < (blocks.map (fun b => b.numTransactions)).sum
         then ((((blocks.map (fun b => b.numSuccessful)).sum : ℕ) : ℚ) /
               (((blocks.map (fun b => b.numTransactions)).sum : ℕ) : ℚ)) * 100
         else 0) ∧
      0 ≤ (summarizeBlocks blocks).successRate ∧
      (summarizeBlocks blocks).successRate ≤ 100 ∧
      (summarizeBlocks blocks).avgTxPerBlock =
        (((blocks.map (fun b => b.numTransactions)).sum : ℕ) : ℚ) / (blocks.length : ℚ) ∧
      (summarizeBlocks blocks).avgFeePerTx = 0) := by
  constructor
  · rfl
  · intro hne
    have hlen : ¬ blocks.length = 0 := by
      simpa [List.length_eq_zero] using hne
    have hsum : (blocks.map (fun b => b.numSuccessful)).sum ≤
        (blocks.map (fun b => b.numTransactions)).sum :=
      List.sum_le_sum hb
    have hsummary : summarizeBlocks blocks =
        { blocksAnalyzed := blocks.length
          totalTransactions := (blocks.map (fun b => b.numTransactions)).sum
          successRate :=
            if 0 < (blocks.map (fun b => b.numTransactions)).sum
            then ((((blocks.map (fun b => b.numSuccessful)).sum : ℕ) : ℚ) /
                  (((blocks.map (fun b => b.numTransactions)).sum : ℕ) : ℚ)) * 100
            else 0
          avgTxPerBlock := (((blocks.map (fun b => b.numTransactions)).sum : ℕ) : ℚ) /
            (blocks.length : ℚ)
          avgFeePerTx := 0 } := by
      unfold summarizeBlocks
      rw [if_neg hlen]
    have hrate : (summarizeBlocks blocks).successRate =
        (if 0 < (blocks.map (fun b => b.numTransactions)).sum
         then ((((blocks.map (fun b => b.numSuccessful)).sum : ℕ) : ℚ) /
               (((blocks.map (fun b => b.numTransactions)).sum : ℕ) : ℚ)) * 100
         else 0) := by
      rw [hsummary]
    refine ⟨by rw [hsummary], by rw [hsummary], hrate,
      ?_, ?_, by rw [hsummary], by rw [hsummary]⟩
    · rw [hrate]
      by_cases ht : 0 < (blocks.map (fun b => b.numTransactions)).sum
      · rw [if_pos ht]
        positivity
      · rw [if_neg ht]
    · rw [hrate]
      by_cases ht : 0 < (blocks.map (fun b => b.numTransactions)).sum
      · rw [if_pos ht]
        have htq : (0 : ℚ) < (((blocks.map (fun b => b.numTransactions)).sum : ℕ) : ℚ) := by
          exact_mod_cast ht
        have hdiv : (((blocks.map (fun b => b.numSuccessful)).sum : ℕ) : ℚ) /
            (((blocks.map (fun b => b.numTransactions)).sum : ℕ) : ℚ) ≤ 1 := by
          rw [div_le_one htq]
          exact_mod_cast hsum
        calc (((blocks.map (fun b => b.numSuccessful)).sum : ℕ) : ℚ) /
              (((blocks.map (fun b => b.numTransactions)).sum : ℕ) : ℚ) * 100
            ≤ 1 * 100 := by
              exact mul_le_mul_of_nonneg_right hdiv (by norm_num)
          _ = 100 := by norm_num
      · rw [if_neg ht]
        norm_num

/-- Witness for C2 at one concrete non-empty batch. -/
theorem C2_witness :
    0 ≤ (summarizeBlocks [⟨1, "", 10, 8, 2, none⟩]).successRate ∧
    (summarizeBlocks [⟨1, "", 10, 8, 2, none⟩]).successRate ≤ 100 :=
  ⟨(((C2_summarizeBlocks_spec [⟨1, "", 10, 8, 2, none⟩] (by decide)).2
      (by decide)).2.2.2).1,
   ((((C2_summarizeBlocks_spec [⟨1, "", 10, 8, 2, none⟩] (by decide)).2
      (by decide)).2.2.2).2).1⟩

/-- The ranking comparator is transitive. -/
theorem rankLe_trans (a b c : ProgramRanking) (hab : rankLe a b = true)
    (hbc : rankLe b c = true) : rankLe a c = true := by
  simp only [rankLe, decide_eq_true_eq] at hab hbc ⊢
  omega

/-- The ranking comparator is total. -/
theorem rankLe_total (a b : ProgramRanking) : (rankLe a b || rankLe b a) = true := by
  simp only [rankLe, Bool.or_eq_true, decide_eq_true_eq]
  omega

/-- Summing `(count / t) * 100` over an association list factors through
the sum of the counts. -/
theorem sum_shares_factor (m : List (String × Nat)) (t : ℚ) :
    (m.map (fun pc => ((pc.2 : ℚ) / t) * 100)).sum =
      ((m.map (fun pc => (pc.2 : ℚ))).sum / t) * 100 := by
  induction m with
  | nil => simp
  | cons a l ih =>
    simp only [List.map_cons, List.sum_cons, ih]
    ring

/-- Casting the sum of an association list's values. -/
theorem sum_counts_cast (m : List (String × Nat)) :
    (m.map (fun pc => (pc.2 : ℚ))).sum = (((m.map Prod.snd).sum : ℕ) : ℚ) := by
  induction m with
  | nil => simp
  | cons a l ih => simp [ih]

/-- C3 counterexample: for the empty invocation-count map — which has at
most 20 entries — the returned shares sum to 0, not 100, so the claim's
"the sum of returned share values equals 100 when the map has at most 20
entries" is false as stated. -/
theorem C3_counterexample :
    ¬ (([] : InvocationCounts).length ≤ 20 →
        ((rankPrograms ([] : InvocationCounts)).map (fun r => r.share)).sum = 100) := by
  intro h
  have h2 := h (by decide)
  rw [show rankPrograms ([] : InvocationCounts) = [] from by
    simp [rankPrograms]] at h2
  norm_num at h2

/-- C3 (amended): rankings are sorted by invocation count descending, each
share equals `count / total × 100` (0 when the total is 0), the shares sum
to exactly 100 when the map has at most 20 entries and the total is
positive (they sum to 0 when the total is 0), and the sum never exceeds
100, also when the result is truncated to the top 20. -/
theorem C3_amended_rankPrograms_spec (m : InvocationCounts) :
    List.Pairwise (fun a b => b.invocationCount ≤ a.invocationCount) (rankPrograms m) ∧
    (∀ r ∈ rankPrograms m,
      r.share = if 0 < (m.map Prod.snd).sum
                then ((r.invocationCount : ℚ) / (((m.map Prod.snd).sum : ℕ) : ℚ)) * 100
                else 0) ∧
    (m.length ≤ 20 → 0 < (m.map Prod.snd).sum →
      ((rankPrograms m).map (fun r => r.share)).sum = 100) ∧
    ((m.map Prod.snd).sum = 0 → ((rankPrograms m).map (fun r => r.share)).sum = 0) ∧
    ((rankPrograms m).map (fun r => r.share)).sum ≤ 100 := by
  unfold rankPrograms
  have hmapshare : ((m.map (rankEntry m)).map (fun r => r.share)) =
      m.map (fun pc => if 0 < (m.map Prod.snd).sum
        then ((pc.2 : ℚ) / (((m.map Prod.snd).sum : ℕ) : ℚ)) * 100 else 0) := by
    rw [List.map_map]
    rfl
  have hsum_all : (((m.map (rankEntry m)).map (fun r => r.share)).sum =
      if 0 < (m.map Prod.snd).sum then (100 : ℚ) else 0) := by
    rw [hmapshare]
    by_cases htot : 0 < (m.map Prod.snd).sum
    · rw [if_pos htot]
      simp only [if_pos htot]
      rw [sum_shares_factor, sum_counts_cast]
      have hS0 : (((m.map Prod.snd).sum : ℕ) : ℚ) ≠ 0 :=
        Nat.cast_ne_zero.mpr (Nat.pos_iff_ne_zero.mp htot)
      rw [div_self hS0]
      norm_num
    · rw [if_neg htot]
      simp only [if_neg htot]
      simp
  have hperm : (((m.map (rankEntry m)).mergeSort rankLe).map (fun r => r.share)).Perm
      ((m.map (rankEntry m)).map (fun r => r.share)) :=
    (List.mergeSort_perm (m.map (rankEntry m)) rankLe).map (fun r => r.share)
  have hnonneg : ∀ x ∈ (m.map (rankEntry m)).map (fun r => r.share), 0 ≤ x := by
    rw [hmapshare]
    intro x hx
    rcases List.mem_map.mp hx with ⟨pc, hpc, rfl⟩
    by_cases htot : 0 < (m.map Prod.snd).sum
    · rw [if_pos htot]
      positivity
    · rw [if_neg htot]
  have hnonneg2 : ∀ x ∈ ((m.map (rankEntry m)).mergeSort rankLe).map (fun r => r.share),
      0 ≤ x :=
    fun x hx => hnonneg x (hperm.subset hx)
  have hle : ((((m.map (rankEntry m)).mergeSort rankLe).take 20).map
        (fun r => r.share)).sum ≤
      ((m.map (rankEntry m)).map (fun r => r.share)).sum := by
    calc ((((m.map (rankEntry m)).mergeSort rankLe).take 20).map (fun r => r.share)).sum
        ≤ (((m.map (rankEntry m)).mergeSort rankLe).map (fun r => r.share)).sum :=
          List.Sublist.sum_le_sum
            (List.Sublist.map (fun r => r.share)
              (List.take_sublist 20 ((m.map (rankEntry m)).mergeSort rankLe)))
            hnonneg2
      _ = ((m.map (rankEntry m)).map (fun r => r.share)).sum := hperm.sum_eq
  refine ⟨?_, ?_, ?_, ?_, ?_⟩
  · exact ((List.sorted_mergeSort rankLe_trans rankLe_total
        (m.map (rankEntry m))).sublist
        (List.take_sublist 20 _)).imp (fun h => of_decide_eq_true h)
  · intro r hr
    have hr3 : r ∈ m.map (rankEntry m) :=
      (List.mergeSort_perm (m.map (rankEntry m)) rankLe).mem_iff.mp
        (List.mem_of_mem_take hr)
    rcases List.mem_map.mp hr3 with ⟨pc, hpc, rfl⟩
    rfl
  · intro h20 htot
    have hlen : ((m.map (rankEntry m)).mergeSort rankLe).length ≤ 20 := by
      rw [(List.mergeSort_perm (m.map (rankEntry m)) rankLe).length_eq,
        List.length_map]
      exact h20
    rw [List.take_of_length_le hlen, hperm.sum_eq, hsum_all, if_pos htot]
  · intro h0
    apply List.sum_eq_zero
    intro x hx
    rcases List.mem_map.mp hx with ⟨r, hr, rfl⟩
    have hr3 : r ∈ m.map (rankEntry m) :=
      (List.mergeSort_perm (m.map (rankEntry m)) rankLe).mem_iff.mp
        (List.mem_of_mem_take hr)
    rcases List.mem_map.mp hr3 with ⟨pc, hpc, rfl⟩
    have hnpos : ¬ 0 < (m.map Prod.snd).sum := by omega
    simp [rankEntry, if_neg hnpos]
  · calc ((((m.map (rankEntry m)).mergeSort rankLe).take 20).map
          (fun r => r.share)).sum
        ≤ ((m.map (rankEntry m)).map (fun r => r.share)).sum := hle
      _ ≤ 100 := by
          rw [hsum_all]
          split <;> norm_num

/-- Witness for C3 (amended): a two-entry map's shares sum to exactly 100. -/
theorem C3_witness :
    ((rankPrograms [("A", 3), ("B", 1)]).map (fun r => r.share)).sum = 100 :=
  (C3_amended_rankPrograms_spec [("A", 3), ("B", 1)]).2.2.1 (by decide) (by decide)

/-- Every anomaly of the failure-rate rule has kind `high_failure_rate`. -/
theorem failureRate_types (bs : BlockSummary) :
    ∀ a ∈ failureRateAnomalies bs, a.type = AnomalyType.high_failure_rate := by
  intro a ha
  unfold failureRateAnomalies at ha
  split at ha
  · rw [List.mem_singleton] at ha
    subst ha
    rfl
  · exact absurd ha (List.not_mem_nil a)

/-- Every anomaly of the large-block rule has kind `large_block`. -/
theorem largeBlock_types (bs : BlockSummary) :
    ∀ a ∈ largeBlockAnomalies bs, a.type = AnomalyType.large_block := by
  intro a ha
  unfold largeBlockAnomalies at ha
  split at ha
  · rw [List.mem_singleton] at ha
    subst ha
    rfl
  · exact absurd ha (List.not_mem_nil a)

/-- Every anomaly of the empty-block rule has kind `empty_block`. -/
theorem emptyBlock_types (bs : BlockSummary) :
    ∀ a ∈ emptyBlockAnomalies bs, a.type = AnomalyType.empty_block := by
  intro a ha
  unfold emptyBlockAnomalies at ha
  split at ha
  · rw [List.mem_singleton] at ha
    subst ha
    rfl
  · exact absurd ha (List.not_mem_nil a)

/-- Every anomaly of the new-program rule has kind `new_program_detected`,
severity `low`, and carries some program identifier. -/
theorem newProgram_types (counts : InvocationCounts)
    (hist : List HistoricalDataPoint) (known : List String) :
    ∀ a ∈ newProgramAnomalies counts hist known,
      a.type = AnomalyType.new_program_detected ∧ a.severity = Severity.low := by
  intro a ha
  unfold newProgramAnomalies at ha
  split at ha
  · rcases List.mem_filterMap.mp ha with ⟨q, hq, hf⟩
    split at hf
    · injection hf with hf
      subst hf
      exact ⟨rfl, rfl⟩
    · cases hf
  · exact absurd ha (List.not_mem_nil a)

/-- Every anomaly of the surge rule has kind `program_surge`. -/
theorem surge_types (counts : InvocationCounts) (hist : List HistoricalDataPoint) :
    ∀ a ∈ programSurgeAnomalies counts hist, a.type = AnomalyType.program_surge := by
  intro a ha
  unfold programSurgeAnomalies at ha
  split at ha
  · split at ha
    · exact absurd ha (List.not_mem_nil a)
    · rcases List.mem_filterMap.mp ha with ⟨pc, hpc, hf⟩
      simp only [] at hf
      split at hf
      · injection hf with hf
        subst hf
        rfl
      · cases hf
  · exact absurd ha (List.not_mem_nil a)

/-- Every anomaly of the TPS rule has kind `tps_spike` or `tps_drop`. -/
theorem tps_types (stats : NetworkStats) (baselineTps : Option ℚ) :
    ∀ a ∈ tpsAnomalies stats baselineTps,
      a.type = AnomalyType.tps_spike ∨ a.type = AnomalyType.tps_drop := by
  intro a ha
  cases baselineTps with
  | none => exact absurd ha (List.not_mem_nil a)
  | some b =>
    simp only [tpsAnomalies] at ha
    split at ha
    · split at ha
      · rw [List.mem_singleton] at ha
        subst ha
        exact Or.inl rfl
      · split at ha
        · rw [List.mem_singleton] at ha
          subst ha
          exact Or.inr rfl
        · exact absurd ha (List.not_mem_nil a)
    · exact absurd ha (List.not_mem_nil a)

/-- Normal form of the TPS rule once a baseline exists. -/
theorem tpsAnomalies_some (stats : NetworkStats) (b : ℚ) :
    tpsAnomalies stats (some b) =
      (if 0 < b then
        if 2 < stats.tps / b then
          [⟨AnomalyType.tps_spike,
            if 3 < stats.tps / b then Severity.high else Severity.medium, none⟩]
        else if stats.tps / b < 3 / 10 ∧ 0 < stats.tps then
          [⟨AnomalyType.tps_drop,
            if stats.tps / b < 1 / 10 then Severity.high else Severity.medium, none⟩]
        else []
      else []) := rfl

/-- A `tps_spike` anomaly is emitted exactly when a positive baseline
exists and the ratio exceeds 2. -/
theorem tpsAnomalies_spike_iff (stats : NetworkStats) (baselineTps : Option ℚ) :
    (∃ a ∈ tpsAnomalies stats baselineTps, a.type = AnomalyType.tps_spike) ↔
      ∃ b, baselineTps = some b ∧ 0 < b ∧ 2 < stats.tps / b := by
  cases baselineTps with
  | none => simp [tpsAnomalies]
  | some b =>
    rw [tpsAnomalies_some]
    by_cases hpos : 0 < b
    · rw [if_pos hpos]
      by_cases hsp : 2 < stats.tps / b
      · rw [if_pos hsp]
        simp only [List.mem_singleton]
        constructor
        · intro _
          exact ⟨b, rfl, hpos, hsp⟩
        · intro _
          exact ⟨_, rfl, rfl⟩
      · rw [if_neg hsp]
        by_cases hdr : stats.tps / b < 3 / 10 ∧ 0 < stats.tps
        · rw [if_pos hdr]
          simp only [List.mem_singleton]
          constructor
          · rintro ⟨a, rfl, hty⟩
            simp at hty
          · rintro ⟨b2, hb2, hp2, hr2⟩
            injection hb2 with hb2
            subst hb2
            exact absurd hr2 hsp
        · rw [if_neg hdr]
          constructor
          · rintro ⟨a, ha, _⟩
            exact absurd ha (List.not_mem_nil a)
          · rintro ⟨b2, hb2, hp2, hr2⟩
            injection hb2 with hb2
            subst hb2
            exact absurd hr2 hsp
    · rw [if_neg hpos]
      constructor
      · rintro ⟨a, ha, _⟩
        exact absurd ha (List.not_mem_nil a)
      · rintro ⟨b2, hb2, hp2, _⟩
        injection hb2 with hb2
        subst hb2
        exact absurd hp2 hpos

/-- A `tps_drop` anomaly is emitted exactly when a positive baseline
exists, the ratio is below 0.3, and the current TPS is positive. -/
theorem tpsAnomalies_drop_iff (stats : NetworkStats) (baselineTps : Option ℚ) :
    (∃ a ∈ tpsAnomalies stats baselineTps, a.type = AnomalyType.tps_drop) ↔
      ∃ b, baselineTps = some b ∧ 0 < b ∧ stats.tps / b < 3 / 10 ∧ 0 < stats.tps := by
  cases baselineTps with
  | none => simp [tpsAnomalies]
  | some b =>
    rw [tpsAnomalies_some]
    by_cases hpos : 0 < b
    · rw [if_pos hpos]
      by_cases hsp : 2 < stats.tps / b
      · rw [if_pos hsp]
        simp only [List.mem_singleton]
        constructor
        · rintro ⟨a, rfl, hty⟩
          simp at hty
        · rintro ⟨b2, hb2, hp2, hr2, _⟩
          injection hb2 with hb2
          subst hb2
          have : (2 : ℚ) < 3 / 10 := lt_trans hsp hr2
          norm_num at this
      · rw [if_neg hsp]
        by_cases hdr : stats.tps / b < 3 / 10 ∧ 0 < stats.tps
        · rw [if_pos hdr]
          simp only [List.mem_singleton]
          constructor
          · intro _
            exact ⟨b, rfl, hpos, hdr.1, hdr.2⟩
          · intro _
            exact ⟨_, rfl, rfl⟩
        · rw [if_neg hdr]
          constructor
          · rintro ⟨a, ha, _⟩
            exact absurd ha (List.not_mem_nil a)
          · rintro ⟨b2, hb2, hp2, hr2, ht2⟩
            injection hb2 with hb2
            subst hb2
            exact absurd ⟨hr2, ht2⟩ hdr
    · rw [if_neg hpos]
      constructor
      · rintro ⟨a, ha, _⟩
        exact absurd ha (List.not_mem_nil a)
      · rintro ⟨b2, hb2, hp2, _⟩
        injection hb2 with hb2
        subst hb2
        exact absurd hp2 hpos

/-- Severity of an emitted `tps_spike` anomaly. -/
theorem tpsAnomalies_spike_severity (stats : NetworkStats) (b : ℚ) (a : Anomaly)
    (ha : a ∈ tpsAnomalies stats (some b)) (hty : a.type = AnomalyType.tps_spike) :
    a.severity = if 3 < stats.tps / b then Severity.high else Severity.medium := by
  rw [tpsAnomalies_some] at ha
  split at ha
  · split at ha
    · rw [List.mem_singleton] at ha
      subst ha
      rfl
    · split at ha
      · rw [List.mem_singleton] at ha
        subst ha
        simp at hty
      · exact absurd ha (List.not_mem_nil a)
  · exact absurd ha (List.not_mem_nil a)

/-- Severity of an emitted `tps_drop` anomaly. -/
theorem tpsAnomalies_drop_severity (stats : NetworkStats) (b : ℚ) (a : Anomaly)
    (ha : a ∈ tpsAnomalies stats (some b)) (hty : a.type = AnomalyType.tps_drop) :
    a.severity = if stats.tps / b < 1 / 10 then Severity.high else Severity.medium := by
  rw [tpsAnomalies_some] at ha
  split at ha
  · split at ha
    · rw [List.mem_singleton] at ha
      subst ha
      simp at hty
    · split at ha
      · rw [List.mem_singleton] at ha
        subst ha
        rfl
      · exact absurd ha (List.not_mem_nil a)
  · exact absurd ha (List.not_mem_nil a)

/-- In an association list with distinct keys, membership of a pair gives
the lookup result (the `Map` key-uniqueness guarantee). -/
theorem lookup_some_of_mem_nodup {l : List (String × Nat)} {p : String} {c : Nat}
    (hnd : (l.map Prod.fst).Nodup) (hm : (p, c) ∈ l) : l.lookup p = some c := by
  induction l with
  | nil => cases hm
  | cons e t ih =>
    obtain ⟨k, v⟩ := e
    rw [List.map_cons, List.nodup_cons] at hnd
    rw [List.mem_cons] at hm
    rcases hm with hm | hm
    · injection hm with h1 h2
      subst h1
      subst h2
      simp [List.lookup_cons]
    · have hne : (p == k) = false := by
        rw [beq_eq_false_iff_ne]
        intro hpk
        have hp : p ∈ t.map Prod.fst := List.mem_map.mpr ⟨(p, c), hm, rfl⟩
        exact hnd.1 (hpk ▸ hp)
      rw [List.lookup_cons, hne]
      exact ih hnd.2 hm

/-- A successful lookup exhibits a member pair. -/
theorem mem_of_lookup_some {l : List (String × Nat)} {p : String} {c : Nat}
    (h : l.lookup p = some c) : (p, c) ∈ l := by
  induction l with
  | nil => cases h
  | cons e t ih =>
    obtain ⟨k, v⟩ := e
    rw [List.lookup_cons] at h
    cases hpk : p == k with
    | true =>
      rw [hpk] at h
      injection h with h
      subst h
      have : p = k := by simpa using hpk
      subst this
      exact List.mem_cons_self _ _
    | false =>
      rw [hpk] at h
      exact List.mem_cons_of_mem _ (ih h)

/-- A `new_program_detected` anomaly for identifier `p` is emitted exactly
when the pre-append history is longer than 3 and `p` occurs in this round's
counts but neither in the last 5 history entries nor in the all-time known
set. -/
theorem newProgram_mem_iff (counts : InvocationCounts)
    (hist : List HistoricalDataPoint) (known : List String) (p : String) :
    (∃ a ∈ newProgramAnomalies counts hist known,
        a.type = AnomalyType.new_program_detected ∧ a.programId = some p) ↔
      (3 < hist.length ∧ p ∈ counts.map Prod.fst ∧
        p ∉ previousPrograms hist ∧ p ∉ known) := by
  unfold newProgramAnomalies
  split
  · next hlen =>
    constructor
    · rintro ⟨a, ha, hty, hpid⟩
      rcases List.mem_filterMap.mp ha with ⟨q, hq, hf⟩
      split at hf
      · next hcond =>
        injection hf with hf
        subst hf
        injection hpid with hpid
        subst hpid
        exact ⟨hlen, hq, hcond.1, hcond.2⟩
      · cases hf
    · rintro ⟨hl, hp, hprev, hknown⟩
      refine ⟨⟨AnomalyType.new_program_detected, Severity.low, some p⟩, ?_, rfl, rfl⟩
      exact List.mem_filterMap.mpr ⟨p, hp, by rw [if_pos ⟨hprev, hknown⟩]⟩
  · next hlen =>
    constructor
    · rintro ⟨a, ha, _⟩
      exact absurd ha (List.not_mem_nil a)
    · rintro ⟨hl, _⟩
      exact absurd hl hlen

/-- A `program_surge` anomaly for identifier `p` is emitted exactly when
the pre-append history is longer than 2 and, against the single most
recent history entry, the previous count exceeds 5 and this round's count
exceeds three times it. -/
theorem surge_mem_iff (counts : InvocationCounts) (hist : List HistoricalDataPoint)
    (p : String) (hnd : (counts.map Prod.fst).Nodup) :
    (∃ a ∈ programSurgeAnomalies counts hist,
        a.type = AnomalyType.program_surge ∧ a.programId = some p) ↔
      (2 < hist.length ∧ ∃ last, hist.getLast? = some last ∧
        ∃ c, counts.lookup p = some c ∧
          5 < (last.programCounts.lookup p).getD 0 ∧
          (last.programCounts.lookup p).getD 0 * 3 < c) := by
  unfold programSurgeAnomalies
  split
  · next hlen =>
    cases hist.getLast? with
    | none =>
      constructor
      · rintro ⟨a, ha, _⟩
        exact absurd ha (List.not_mem_nil a)
      · rintro ⟨_, last, hsome, _⟩
        cases hsome
    | some last =>
      constructor
      · rintro ⟨a, ha, hty, hpid⟩
        rcases List.mem_filterMap.mp ha with ⟨pc, hpc, hf⟩
        simp only [] at hf
        split at hf
        · next hcond =>
          injection hf with hf
          subst hf
          injection hpid with hpid
          subst hpid
          refine ⟨hlen, last, rfl, pc.2, ?_, hcond.1, hcond.2⟩
          exact lookup_some_of_mem_nodup hnd hpc
        · cases hf
      · rintro ⟨hl2, last2, hsome, c, hc, h5, h3⟩
        injection hsome with hsome
        subst hsome
        refine ⟨⟨AnomalyType.program_surge,
          if (last.programCounts.lookup p).getD 0 * 10 < c then Severity.high
          else Severity.medium, some p⟩, ?_, rfl, rfl⟩
        refine List.mem_filterMap.mpr ⟨(p, c), mem_of_lookup_some hc, ?_⟩
        simp only []
        rw [if_pos ⟨h5, h3⟩]
  · next hlen =>
    constructor
    · rintro ⟨a, ha, _⟩
      exact absurd ha (List.not_mem_nil a)
    · rintro ⟨hl2, _⟩
      exact absurd hl2 hlen

/-- Severity of an emitted `program_surge` anomaly for identifier `p`. -/
theorem surge_severity (counts : InvocationCounts) (hist : List HistoricalDataPoint)
    (p : String) (a : Anomaly) (last : HistoricalDataPoint) (c : Nat)
    (hnd : (counts.map Prod.fst).Nodup)
    (ha : a ∈ programSurgeAnomalies counts hist)
    (hty : a.type = AnomalyType.program_surge) (hpid : a.programId = some p)
    (hl : hist.getLast? = some last) (hc : counts.lookup p = some c) :
    a.severity = if (last.programCounts.lookup p).getD 0 * 10 < c then Severity.high
      else Severity.medium := by
  unfold programSurgeAnomalies at ha
  split at ha
  · rw [hl] at ha
    rcases List.mem_filterMap.mp ha with ⟨pc, hpc, hf⟩
    simp only [] at hf
    split at hf
    · injection hf with hf
      subst hf
      injection hpid with hpid
      subst hpid
      have : counts.lookup pc.1 = some pc.2 := lookup_some_of_mem_nodup hnd hpc
      rw [hc] at this
      injection this with this
      rw [this]
    · cases hf
  · exact absurd ha (List.not_mem_nil a)

/-- With distinct map keys, the new-program rule emits at most one anomaly
for a given identifier. -/
theorem newProgram_countP_le_one (counts : InvocationCounts)
    (hist : List HistoricalDataPoint) (known : List String) (p : String)
    (hnd : (counts.map Prod.fst).Nodup) :
    (newProgramAnomalies counts hist known).countP
      (fun a => decide (a.type = AnomalyType.new_program_detected ∧
        a.programId = some p)) ≤ 1 := by
  unfold newProgramAnomalies
  split
  · rw [List.countP_filterMap]
    have hle : List.countP
        (fun q => (Option.map
          (fun a => decide (a.type = AnomalyType.new_program_detected ∧
            a.programId = some p))
          (if q ∉ previousPrograms hist ∧ q ∉ known then
            some (⟨AnomalyType.new_program_detected, Severity.low, some q⟩ : Anomaly)
          else none)).getD false) (counts.map Prod.fst) ≤
        List.countP (fun q => q == p) (counts.map Prod.fst) := by
      apply List.countP_mono_left
      intro q hq hqp
      split at hqp
      · simp at hqp
        simp [hqp]
      · exact Bool.noConfusion hqp
    calc List.countP _ (counts.map Prod.fst)
        ≤ List.countP (fun q => q == p) (counts.map Prod.fst) := hle
      _ = List.count p (counts.map Prod.fst) := (List.count_eq_countP p _).symm
      _ ≤ 1 := List.nodup_iff_count_le_one.mp hnd p
  · simp

/-- With distinct map keys, the surge rule emits at most one anomaly for a
given identifier. -/
theorem surge_countP_le_one (counts : InvocationCounts)
    (hist : List HistoricalDataPoint) (p : String)
    (hnd : (counts.map Prod.fst).Nodup) :
    (programSurgeAnomalies counts hist).countP
      (fun a => decide (a.type = AnomalyType.program_surge ∧
        a.programId = some p)) ≤ 1 := by
  unfold programSurgeAnomalies
  split
  · cases hist.getLast? with
    | none => simp
    | some last =>
      rw [List.countP_filterMap]
      have hle : List.countP
          (fun pc => (Option.map
            (fun a => decide (a.type = AnomalyType.program_surge ∧
              a.programId = some p))
            (let prevCount := (last.programCounts.lookup pc.1).getD 0
             if 5 < prevCount ∧ prevCount * 3 < pc.2 then
               some (⟨AnomalyType.program_surge,
                 if prevCount * 10 < pc.2 then Severity.high else Severity.medium,
                 some pc.1⟩ : Anomaly)
             else none)).getD false) counts ≤
          List.countP (fun pc => pc.1 == p) counts := by
        apply List.countP_mono_left
        intro pc hpc hqp
        simp only [] at hqp
        split at hqp
        · simp at hqp
          simp [hqp]
        · exact Bool.noConfusion hqp
      calc List.countP _ counts
          ≤ List.countP (fun pc => pc.1 == p) counts := hle
        _ = List.countP ((fun q => q == p) ∘ Prod.fst) counts := rfl
        _ = List.countP (fun q => q == p) (counts.map Prod.fst) :=
            (List.countP_map (fun q => q == p) Prod.fst counts).symm
        _ = List.count p (counts.map Prod.fst) := (List.count_eq_countP p _).symm
        _ ≤ 1 := List.nodup_iff_count_le_one.mp hnd p
  · simp

/-- Membership in `detectAnomalies` splits over the six rule lists. -/
theorem mem_detect_cases (stats : NetworkStats) (bs : BlockSummary)
    (tp : List ProgramRanking) (counts : InvocationCounts) (st : EngineState)
    (a : Anomaly) (ha : a ∈ detectAnomalies stats bs tp counts st) :
    a ∈ failureRateAnomalies bs ∨ a ∈ tpsAnomalies stats st.baselineTps ∨
    a ∈ largeBlockAnomalies bs ∨ a ∈ emptyBlockAnomalies bs ∨
    a ∈ newProgramAnomalies counts st.history st.knownPrograms ∨
    a ∈ programSurgeAnomalies counts st.history := by
  unfold detectAnomalies at ha
  simp only [List.mem_append] at ha
  tauto

/-- An anomaly of a TPS kind inside `detectAnomalies` lives in the TPS
rule's output, and conversely. -/
theorem detect_tps_filter (stats : NetworkStats) (bs : BlockSummary)
    (tp : List ProgramRanking) (counts : InvocationCounts) (st : EngineState)
    (a : Anomaly)
    (hty : a.type = AnomalyType.tps_spike ∨ a.type = AnomalyType.tps_drop) :
    a ∈ detectAnomalies stats bs tp counts st ↔
      a ∈ tpsAnomalies stats st.baselineTps := by
  constructor
  · intro ha
    rcases mem_detect_cases stats bs tp counts st a ha with h | h | h | h | h | h
    · rw [failureRate_types bs a h] at hty
      rcases hty with h2 | h2 <;> cases h2
    · exact h
    · rw [largeBlock_types bs a h] at hty
      rcases hty with h2 | h2 <;> cases h2
    · rw [emptyBlock_types bs a h] at hty
      rcases hty with h2 | h2 <;> cases h2
    · rw [(newProgram_types counts st.history st.knownPrograms a h).1] at hty
      rcases hty with h2 | h2 <;> cases h2
    · rw [surge_types counts st.history a h] at hty
      rcases hty with h2 | h2 <;> cases h2
  · intro ha
    unfold detectAnomalies
    simp only [List.mem_append]
    tauto

/-- An anomaly of kind `new_program_detected` inside `detectAnomalies`
lives in the new-program rule's output, and conversely. -/
theorem detect_new_filter (stats : NetworkStats) (bs : BlockSummary)
    (tp : List ProgramRanking) (counts : InvocationCounts) (st : EngineState)
    (a : Anomaly) (hty : a.type = AnomalyType.new_program_detected) :
    a ∈ detectAnomalies stats bs tp counts st ↔
      a ∈ newProgramAnomalies counts st.history st.knownPrograms := by
  constructor
  · intro ha
    rcases mem_detect_cases stats bs tp counts st a ha with h | h | h | h | h | h
    · rw [failureRate_types bs a h] at hty
      cases hty
    · rcases tps_types stats st.baselineTps a h with h2 | h2 <;>
        rw [h2] at hty <;> cases hty
    · rw [largeBlock_types bs a h] at hty
      cases hty
    · rw [emptyBlock_types bs a h] at hty
      cases hty
    · exact h
    · rw [surge_types counts st.history a h] at hty
      cases hty
  · intro ha
    unfold detectAnomalies
    simp only [List.mem_append]
    tauto

/-- An anomaly of kind `program_surge` inside `detectAnomalies` lives in
the surge rule's output, and conversely. -/
theorem detect_surge_filter (stats : NetworkStats) (bs : BlockSummary)
    (tp : List ProgramRanking) (counts : InvocationCounts) (st : EngineState)
    (a : Anomaly) (hty : a.type = AnomalyType.program_surge) :
    a ∈ detectAnomalies stats bs tp counts st ↔
      a ∈ programSurgeAnomalies counts st.history := by
  constructor
  · intro ha
    rcases mem_detect_cases stats bs tp counts st a ha with h | h | h | h | h | h
    · rw [failureRate_types bs a h] at hty
      cases hty
    · rcases tps_types stats st.baselineTps a h with h2 | h2 <;>
        rw [h2] at hty <;> cases hty
    · rw [largeBlock_types bs a h] at hty
      cases hty
    · rw [emptyBlock_types bs a h] at hty
      cases hty
    · rw [(newProgram_types counts st.history st.knownPrograms a h).1] at hty
      cases hty
    · exact h
  · intro ha
    unfold detectAnomalies
    simp only [List.mem_append]
    tauto

/-- The History Ring after one completed call, as written in the source:
push, then shift once over capacity. -/
theorem takeSnapshotStep_history (st : EngineState) (d : FetchData) :
    (takeSnapshotStep st d).history =
      (if maxHistoryLength < (st.history ++ [historyPoint d]).length
       then (st.history ++ [historyPoint d]).tail
       else st.history ++ [historyPoint d]) := rfl

/-- The known-identifier set after one completed call contains the old set
and this round's keys. -/
theorem takeSnapshotStep_known (st : EngineState) (d : FetchData) :
    (takeSnapshotStep st d).knownPrograms =
      st.knownPrograms ++ d.programCounts.map Prod.fst := rfl

/-- The known-identifier set only grows across one completed call. -/
theorem knownPrograms_mono_step (st : EngineState) (d : FetchData) (p : String)
    (h : p ∈ st.knownPrograms) : p ∈ (takeSnapshotStep st d).knownPrograms := by
  rw [takeSnapshotStep_known]
  exact List.mem_append_left _ h

/-- The known-identifier set only grows across any sequence of completed
calls. -/
theorem knownPrograms_mono_run (ds : List FetchData) (st : EngineState) (p : String)
    (h : p ∈ st.knownPrograms) : p ∈ (runSnapshots st ds).knownPrograms := by
  induction ds generalizing st with
  | nil => simpa [runSnapshots] using h
  | cons d ds ih =>
    simpa [runSnapshots] using ih _ (knownPrograms_mono_step st d p h)

/-- Engine-state invariant: every identifier recorded in any History Ring
entry is in the all-time known-identifier set. -/
def engineInv (st : EngineState) : Prop :=
  ∀ e ∈ st.history, ∀ q ∈ e.programCounts.map Prod.fst, q ∈ st.knownPrograms

/-- The invariant holds for a fresh engine. -/
theorem engineInv_init : engineInv initialState := by
  intro e he
  exact absurd he (List.not_mem_nil e)

/-- One completed call preserves the invariant. -/
theorem engineInv_step (st : EngineState) (d : FetchData) (h : engineInv st) :
    engineInv (takeSnapshotStep st d) := by
  intro e he q hq
  rw [takeSnapshotStep_known]
  rw [takeSnapshotStep_history] at he
  have he2 : e ∈ st.history ++ [historyPoint d] := by
    split at he
    · exact (List.tail_sublist _).subset he
    · exact he
  rw [List.mem_append] at he2
  rcases he2 with he2 | he2
  · exact List.mem_append_left _ (h e he2 q hq)
  · rw [List.mem_singleton] at he2
    subst he2
    have hpc : (historyPoint d).programCounts = d.programCounts := rfl
    rw [hpc] at hq
    exact List.mem_append_right _ hq

/-- Any sequence of completed calls preserves the invariant. -/
theorem engineInv_run (ds : List FetchData) (st : EngineState) (h : engineInv st) :
    engineInv (runSnapshots st ds) := by
  induction ds generalizing st with
  | nil => simpa [runSnapshots] using h
  | cons d ds ih =>
    simpa [runSnapshots] using ih _ (engineInv_step st d h)

/-- C6: in one round's anomaly list, `tps_spike` is emitted exactly when
the pre-update baseline is positive and the ratio exceeds 2 (severity high
above ratio 3, else medium), `tps_drop` exactly when the baseline is
positive, the ratio is below 0.3 and the current TPS is positive (severity
high below ratio 0.1, else medium), the two are never emitted together,
and `takeSnapshot` evaluates the rules against the pre-update state. -/
theorem C6_tps_spike_drop_rules (stats : NetworkStats) (bs : BlockSummary)
    (tp : List ProgramRanking) (counts : InvocationCounts) (st : EngineState)
    (d : FetchData) :
    ((∃ a ∈ detectAnomalies stats bs tp counts st,
        a.type = AnomalyType.tps_spike) ↔
      ∃ b, st.baselineTps = some b ∧ 0 < b ∧ 2 < stats.tps / b) ∧
    ((∃ a ∈ detectAnomalies stats bs tp counts st,
        a.type = AnomalyType.tps_drop) ↔
      ∃ b, st.baselineTps = some b ∧ 0 < b ∧ stats.tps / b < 3 / 10 ∧
        0 < stats.tps) ∧
    (∀ b, st.baselineTps = some b →
      (∀ a ∈ detectAnomalies stats bs tp counts st,
        a.type = AnomalyType.tps_spike →
          a.severity = if 3 < stats.tps / b then Severity.high
            else Severity.medium) ∧
      (∀ a ∈ detectAnomalies stats bs tp counts st,
        a.type = AnomalyType.tps_drop →
          a.severity = if stats.tps / b < 1 / 10 then Severity.high
            else Severity.medium)) ∧
    ¬ ((∃ a ∈ detectAnomalies stats bs tp counts st,
          a.type = AnomalyType.tps_spike) ∧
       (∃ a ∈ detectAnomalies stats bs tp counts st,
          a.type = AnomalyType.tps_drop)) ∧
    (takeSnapshotCore st d).1.anomalies =
      detectAnomalies d.stats (summarizeBlocks d.blocks)
        (rankPrograms d.programCounts) d.programCounts st := by
  have hspike : (∃ a ∈ detectAnomalies stats bs tp counts st,
      a.type = AnomalyType.tps_spike) ↔
      ∃ b, st.baselineTps = some b ∧ 0 < b ∧ 2 < stats.tps / b := by
    constructor
    · rintro ⟨a, ha, hty⟩
      exact (tpsAnomalies_spike_iff stats st.baselineTps).mp
        ⟨a, (detect_tps_filter stats bs tp counts st a (Or.inl hty)).mp ha, hty⟩
    · intro h
      rcases (tpsAnomalies_spike_iff stats st.baselineTps).mpr h with ⟨a, ha, hty⟩
      exact ⟨a, (detect_tps_filter stats bs tp counts st a (Or.inl hty)).mpr ha, hty⟩
  have hdrop : (∃ a ∈ detectAnomalies stats bs tp counts st,
      a.type = AnomalyType.tps_drop) ↔
      ∃ b, st.baselineTps = some b ∧ 0 < b ∧ stats.tps / b < 3 / 10 ∧
        0 < stats.tps := by
    constructor
    · rintro ⟨a, ha, hty⟩
      exact (tpsAnomalies_drop_iff stats st.baselineTps).mp
        ⟨a, (detect_tps_filter stats bs tp counts st a (Or.inr hty)).mp ha, hty⟩
    · intro h
      rcases (tpsAnomalies_drop_iff stats st.baselineTps).mpr h with ⟨a, ha, hty⟩
      exact ⟨a, (detect_tps_filter stats bs tp counts st a (Or.inr hty)).mpr ha, hty⟩
  refine ⟨hspike, hdrop, ?_, ?_, rfl⟩
  · intro b hb
    constructor
    · intro a ha hty
      have h2 : a ∈ tpsAnomalies stats st.baselineTps :=
        (detect_tps_filter stats bs tp counts st a (Or.inl hty)).mp ha
      rw [hb] at h2
      exact tpsAnomalies_spike_severity stats b a h2 hty
    · intro a ha hty
      have h2 : a ∈ tpsAnomalies stats st.baselineTps :=
        (detect_tps_filter stats bs tp counts st a (Or.inr hty)).mp ha
      rw [hb] at h2
      exact tpsAnomalies_drop_severity stats b a h2 hty
  · rintro ⟨hs, hd⟩
    rcases hspike.mp hs with ⟨b, hb, hpos, h2⟩
    rcases hdrop.mp hd with ⟨b2, hb2, hpos2, h3, _⟩
    rw [hb] at hb2
    injection hb2 with hb2
    subst hb2
    linarith

/-- Witness for C6: TPS 250 against baseline 100 emits a `tps_spike`. -/
theorem C6_witness :
    ∃ a ∈ detectAnomalies ⟨0, 0, ⟨0, 0, 1, 0, none⟩, 250, 0⟩ (summarizeBlocks [])
        [] [] ⟨[], [], some 100⟩, a.type = AnomalyType.tps_spike :=
  (C6_tps_spike_drop_rules ⟨0, 0, ⟨0, 0, 1, 0, none⟩, 250, 0⟩ (summarizeBlocks [])
    [] [] ⟨[], [], some 100⟩ ⟨⟨0, 0, ⟨0, 0, 1, 0, none⟩, 250, 0⟩, [], [], 0⟩).1.mpr
    ⟨100, rfl, by norm_num, by norm_num⟩

/-- C7: the surge rule runs only when the pre-append history is longer
than 2, compares each identifier only against the single most recent
history entry, fires exactly when the previous count exceeds 5 and the
current count exceeds three times it (one anomaly per identifier, severity
high above ten times the previous count, else medium), and never fires
when the previous count is at most 5. -/
theorem C7_program_surge_rule (stats : NetworkStats) (bs : BlockSummary)
    (tp : List ProgramRanking) (counts : InvocationCounts) (st : EngineState)
    (p : String) (hnd : (counts.map Prod.fst).Nodup) :
    ((∃ a ∈ detectAnomalies stats bs tp counts st,
        a.type = AnomalyType.program_surge ∧ a.programId = some p) ↔
      (2 < st.history.length ∧ ∃ last, st.history.getLast? = some last ∧
        ∃ c, counts.lookup p = some c ∧
          5 < (last.programCounts.lookup p).getD 0 ∧
          (last.programCounts.lookup p).getD 0 * 3 < c)) ∧
    ((detectAnomalies stats bs tp counts st).countP
        (fun a => decide (a.type = AnomalyType.program_surge ∧
          a.programId = some p)) ≤ 1) ∧
    (∀ a ∈ detectAnomalies stats bs tp counts st,
      a.type = AnomalyType.program_surge → a.programId = some p →
        ∀ last c, st.history.getLast? = some last → counts.lookup p = some c →
          a.severity = if (last.programCounts.lookup p).getD 0 * 10 < c
            then Severity.high else Severity.medium) ∧
    (∀ last, st.history.getLast? = some last →
      (last.programCounts.lookup p).getD 0 ≤ 5 →
      ¬ ∃ a ∈ detectAnomalies stats bs tp counts st,
          a.type = AnomalyType.program_surge ∧ a.programId = some p) := by
  have hiff : (∃ a ∈ detectAnomalies stats bs tp counts st,
      a.type = AnomalyType.program_surge ∧ a.programId = some p) ↔
      (2 < st.history.length ∧ ∃ last, st.history.getLast? = some last ∧
        ∃ c, counts.lookup p = some c ∧
          5 < (last.programCounts.lookup p).getD 0 ∧
          (last.programCounts.lookup p).getD 0 * 3 < c) := by
    constructor
    · rintro ⟨a, ha, hty, hpid⟩
      exact (surge_mem_iff counts st.history p hnd).mp
        ⟨a, (detect_surge_filter stats bs tp counts st a hty).mp ha, hty, hpid⟩
    · intro h
      rcases (surge_mem_iff counts st.history p hnd).mpr h with ⟨a, ha, hty, hpid⟩
      exact ⟨a, (detect_surge_filter stats bs tp counts st a hty).mpr ha, hty, hpid⟩
  refine ⟨hiff, ?_, ?_, ?_⟩
  · have hz1 : (failureRateAnomalies bs).countP
        (fun a => decide (a.type = AnomalyType.program_surge ∧
          a.programId = some p)) = 0 :=
      List.countP_eq_zero.mpr (fun a ha => by simp [failureRate_types bs a ha])
    have hz2 : (tpsAnomalies stats st.baselineTps).countP
        (fun a => decide (a.type = AnomalyType.program_surge ∧
          a.programId = some p)) = 0 :=
      List.countP_eq_zero.mpr (fun a ha => by
        rcases tps_types stats st.baselineTps a ha with h | h <;> simp [h])
    have hz3 : (largeBlockAnomalies bs).countP
        (fun a => decide (a.type = AnomalyType.program_surge ∧
          a.programId = some p)) = 0 :=
      List.countP_eq_zero.mpr (fun a ha => by simp [largeBlock_types bs a ha])
    have hz4 : (emptyBlockAnomalies bs).countP
        (fun a => decide (a.type = AnomalyType.program_surge ∧
          a.programId = some p)) = 0 :=
      List.countP_eq_zero.mpr (fun a ha => by simp [emptyBlock_types bs a ha])
    have hz5 : (newProgramAnomalies counts st.history st.knownPrograms).countP
        (fun a => decide (a.type = AnomalyType.program_surge ∧
          a.programId = some p)) = 0 :=
      List.countP_eq_zero.mpr (fun a ha => by
        simp [(newProgram_types counts st.history st.knownPrograms a ha).1])
    unfold detectAnomalies
    rw [List.countP_append, List.countP_append, List.countP_append,
      List.countP_append, List.countP_append, hz1, hz2, hz3, hz4, hz5]
    simpa using surge_countP_le_one counts st.history p hnd
  · intro a ha hty hpid last c hl hc
    have h2 : a ∈ programSurgeAnomalies counts st.history :=
      (detect_surge_filter stats bs tp counts st a hty).mp ha
    exact surge_severity counts st.history p a last c hnd h2 hty hpid hl hc
  · intro last hl h5 hex
    rcases hiff.mp hex with ⟨hlen, last2, hl2, c, hc, h5', _⟩
    rw [hl] at hl2
    injection hl2 with hl2
    subst hl2
    omega

/-- Witness for C7: previous count 10, current count 35 fires a
medium-severity surge for identifier A. -/
theorem C7_witness :
    ∃ a ∈ detectAnomalies ⟨0, 0, ⟨0, 0, 1, 0, none⟩, 0, 0⟩ (summarizeBlocks [])
        [] [("A", 35)]
        ⟨[⟨0, 0, 0, 0, []⟩, ⟨0, 0, 0, 0, []⟩, ⟨0, 0, 0, 0, [("A", 10)]⟩], [], none⟩,
      a.type = AnomalyType.program_surge ∧ a.programId = some "A" :=
  (C7_program_surge_rule ⟨0, 0, ⟨0, 0, 1, 0, none⟩, 0, 0⟩ (summarizeBlocks [])
    [] [("A", 35)]
    ⟨[⟨0, 0, 0, 0, []⟩, ⟨0, 0, 0, 0, []⟩, ⟨0, 0, 0, 0, [("A", 10)]⟩], [], none⟩
    "A" (by decide)).1.mpr
    ⟨by decide, ⟨0, 0, 0, 0, [("A", 10)]⟩, by decide, 35, by decide, by decide,
      by decide⟩

/-- C8: a `new_program_detected` anomaly for an identifier is emitted
exactly when the pre-append history is longer than 3 and the identifier is
absent both from the last 5 history entries and from the all-time known
set; it is always low-severity, at most one per identifier, the known set
only grows, and an identifier already known never fires again. -/
theorem C8_new_program_rule_no_refire (stats : NetworkStats) (bs : BlockSummary)
    (tp : List ProgramRanking) (counts : InvocationCounts) (st : EngineState)
    (p : String) (d : FetchData) (ds : List FetchData)
    (hnd : (counts.map Prod.fst).Nodup) :
    ((∃ a ∈ detectAnomalies stats bs tp counts st,
        a.type = AnomalyType.new_program_detected ∧ a.programId = some p) ↔
      (3 < st.history.length ∧ p ∈ counts.map Prod.fst ∧
        p ∉ previousPrograms st.history ∧ p ∉ st.knownPrograms)) ∧
    (∀ a ∈ detectAnomalies stats bs tp counts st,
      a.type = AnomalyType.new_program_detected → a.severity = Severity.low) ∧
    ((detectAnomalies stats bs tp counts st).countP
        (fun a => decide (a.type = AnomalyType.new_program_detected ∧
          a.programId = some p)) ≤ 1) ∧
    (p ∈ st.knownPrograms → p ∈ (takeSnapshotStep st d).knownPrograms) ∧
    (p ∈ st.knownPrograms → p ∈ (runSnapshots st ds).knownPrograms) ∧
    (p ∈ st.knownPrograms →
      ∀ a ∈ (takeSnapshotCore st d).1.anomalies,
        ¬ (a.type = AnomalyType.new_program_detected ∧ a.programId = some p)) := by
  refine ⟨?_, ?_, ?_, knownPrograms_mono_step st d p,
    knownPrograms_mono_run ds st p, ?_⟩
  · constructor
    · rintro ⟨a, ha, hty, hpid⟩
      exact (newProgram_mem_iff counts st.history st.knownPrograms p).mp
        ⟨a, (detect_new_filter stats bs tp counts st a hty).mp ha, hty, hpid⟩
    · intro h
      rcases (newProgram_mem_iff counts st.history st.knownPrograms p).mpr h
        with ⟨a, ha, hty, hpid⟩
      exact ⟨a, (detect_new_filter stats bs tp counts st a hty).mpr ha, hty, hpid⟩
  · intro a ha hty
    exact (newProgram_types counts st.history st.knownPrograms a
      ((detect_new_filter stats bs tp counts st a hty).mp ha)).2
  · have hz1 : (failureRateAnomalies bs).countP
        (fun a => decide (a.type = AnomalyType.new_program_detected ∧
          a.programId = some p)) = 0 :=
      List.countP_eq_zero.mpr (fun a ha => by simp [failureRate_types bs a ha])
    have hz2 : (tpsAnomalies stats st.baselineTps).countP
        (fun a => decide (a.type = AnomalyType.new_program_detected ∧
          a.programId = some p)) = 0 :=
      List.countP_eq_zero.mpr (fun a ha => by
        rcases tps_types stats st.baselineTps a ha with h | h <;> simp [h])
    have hz3 : (largeBlockAnomalies bs).countP
        (fun a => decide (a.type = AnomalyType.new_program_detected ∧
          a.programId = some p)) = 0 :=
      List.countP_eq_zero.mpr (fun a ha => by simp [largeBlock_types bs a ha])
    have hz4 : (emptyBlockAnomalies bs).countP
        (fun a => decide (a.type = AnomalyType.new_program_detected ∧
          a.programId = some p)) = 0 :=
      List.countP_eq_zero.mpr (fun a ha => by simp [emptyBlock_types bs a ha])
    have hz6 : (programSurgeAnomalies counts st.history).countP
        (fun a => decide (a.type = AnomalyType.new_program_detected ∧
          a.programId = some p)) = 0 :=
      List.countP_eq_zero.mpr (fun a ha => by
        simp [surge_types counts st.history a ha])
    unfold detectAnomalies
    rw [List.countP_append, List.countP_append, List.countP_append,
      List.countP_append, List.countP_append, hz1, hz2, hz3, hz4, hz6]
    simpa using newProgram_countP_le_one counts st.history st.knownPrograms p hnd
  · intro hk a ha hcon
    have ha2 : a ∈ detectAnomalies d.stats (summarizeBlocks d.blocks)
        (rankPrograms d.programCounts) d.programCounts st := ha
    have h4 := (newProgram_mem_iff d.programCounts st.history st.knownPrograms p).mp
      ⟨a, (detect_new_filter d.stats (summarizeBlocks d.blocks)
        (rankPrograms d.programCounts) d.programCounts st a hcon.1).mp ha2,
        hcon.1, hcon.2⟩
    exact h4.2.2.2 hk

/-- Witness for C8: with 4 history entries, identifier C (absent from
history and the known set) fires, applied at a concrete engine state. -/
theorem C8_witness :
    ∃ a ∈ detectAnomalies ⟨0, 0, ⟨0, 0, 1, 0, none⟩, 0, 0⟩ (summarizeBlocks [])
        [] [("C", 1)]
        ⟨[⟨0, 0, 0, 0, [("A", 1)]⟩, ⟨0, 0, 0, 0, []⟩, ⟨0, 0, 0, 0, []⟩,
          ⟨0, 0, 0, 0, []⟩], ["B"], none⟩,
      a.type = AnomalyType.new_program_detected ∧ a.programId = some "C" :=
  (C8_new_program_rule_no_refire ⟨0, 0, ⟨0, 0, 1, 0, none⟩, 0, 0⟩
    (summarizeBlocks []) [] [("C", 1)]
    ⟨[⟨0, 0, 0, 0, [("A", 1)]⟩, ⟨0, 0, 0, 0, []⟩, ⟨0, 0, 0, 0, []⟩,
      ⟨0, 0, 0, 0, []⟩], ["B"], none⟩
    "C" ⟨⟨0, 0, ⟨0, 0, 1, 0, none⟩, 0, 0⟩, [], [], 0⟩ [] (by decide)).1.mpr
    ⟨by decide, by decide, by decide, by decide⟩

/-- C9 (code bug evaluation): `getHistory` returns `[...this.history]`, a
fresh array whose elements are the same object references as the engine's.
At a concrete engine with one history entry, the caller's copy holds the
same element reference, and mutating that element's `programCounts` map
through the copy changes what the engine observes in its own History Ring
— contradicting the claim that no caller mutation through the returned
value can change the engine-internal history. -/
theorem C9_getHistory_shallow_copy_eval :
    getHistoryShallowCopy [0] = [0] ∧
    heapView (storeWrite [⟨0, 0, 0, 0, [("X", 1)]⟩] 0
        (fun pt => { pt with programCounts := mapSet pt.programCounts "X" 99 }))
      [0] ≠
    heapView [⟨0, 0, 0, 0, [("X", 1)]⟩] [0] := by
  exact ⟨rfl, by decide⟩

/-- C10: in every state reachable by completed `takeSnapshot` calls, every
identifier recorded in any History Ring entry is in the all-time
known-identifier set; hence, for invariant states, absence from the known
set already implies absence from the last 5 history entries, and the
history-absence conjunct of `new_program_detected` is redundant. -/
theorem C10_history_keys_known_invariant (ds : List FetchData) (p : String)
    (stats : NetworkStats) (bs : BlockSummary) (tp : List ProgramRanking)
    (counts : InvocationCounts) (st : EngineState) :
    engineInv (runSnapshots initialState ds) ∧
    (engineInv st → p ∉ st.knownPrograms → p ∉ previousPrograms st.history) ∧
    (engineInv st →
      ((∃ a ∈ detectAnomalies stats bs tp counts st,
          a.type = AnomalyType.new_program_detected ∧ a.programId = some p) ↔
        (3 < st.history.length ∧ p ∈ counts.map Prod.fst ∧
          p ∉ st.knownPrograms))) := by
  have habs : ∀ st2 : EngineState, engineInv st2 → p ∉ st2.knownPrograms →
      p ∉ previousPrograms st2.history := by
    intro st2 hinv hk hp
    unfold previousPrograms at hp
    rcases List.mem_flatMap.mp hp with ⟨e, he, hq⟩
    exact hk (hinv e ((List.drop_sublist _ _).subset he) p hq)
  refine ⟨engineInv_run ds initialState engineInv_init, habs st, ?_⟩
  intro hinv
  constructor
  · rintro ⟨a, ha, hty, hpid⟩
    have h4 := (newProgram_mem_iff counts st.history st.knownPrograms p).mp
      ⟨a, (detect_new_filter stats bs tp counts st a hty).mp ha, hty, hpid⟩
    exact ⟨h4.1, h4.2.1, h4.2.2.2⟩
  · rintro ⟨h1, h2, h3⟩
    have h4 := (newProgram_mem_iff counts st.history st.knownPrograms p).mpr
      ⟨h1, h2, habs st hinv h3, h3⟩
    rcases h4 with ⟨a, ha, hty, hpid⟩
    exact ⟨a, (detect_new_filter stats bs tp counts st a hty).mpr ha, hty, hpid⟩

/-- Witness for C10 at the fresh engine state. -/
theorem C10_witness :
    "A" ∉ previousPrograms initialState.history :=
  (C10_history_keys_known_invariant [] "A" ⟨0, 0, ⟨0, 0, 1, 0, none⟩, 0, 0⟩
    (summarizeBlocks []) [] [] initialState).2.1
    (fun e he => absurd he (List.not_mem_nil e))
    (fun h => absurd h (List.not_mem_nil "A"))

end SolanaLens
